import Mathlib

/-
Verification development for the user-space demand-paging virtual memory
system of homework/CS24/cs24hw8/virtualmem.c.

The C code is embedded shallowly: the global mutable state of virtualmem.c
(page table, resident counters, fault counters, swap file) becomes the
record VMState, and each C function becomes a Lean function on VMState.
Functions that can call abort() return a Res value whose aborted
constructor carries the state at the moment abort() runs, so that
statements about what an aborting call did or did not modify are possible.

System calls (mmap, munmap, lseek, read, write) are modelled as
succeeding; their failure branches in the C code merely abort with a
diagnostic.  The one exception is mprotect, whose failure branch matters
to claim C7, so set_page_permission takes an explicit mprotOk flag
recording whether the mprotect call succeeds.

Observable actions (the policy query, mmap/munmap, swap-file reads and
writes, mprotect, stored-permission updates, policy notifications) are
recorded in an event trace appended to the state, mirroring the order in
which the C code performs them.

The constants NUM_PAGES and PAGE_SIZE and the permission constants come
from virtualmem.h, which is not part of the repository snapshot; they are
left as parameters NP and PS.  VIRTUALMEM_ADDR_START is similarly the
parameter named start.
-/

set_option maxHeartbeats 1000000

namespace VirtualMem

/-- Page permission values stored in a page-table entry, from the
PAGEPERM_NONE / PAGEPERM_READ / PAGEPERM_RDWR constants used by
virtualmem.c. -/
inductive Perm where
  | none : Perm
  | read : Perm
  | rdwr : Perm
  deriving DecidableEq, Repr

/-- The widening order on permissions: NONE below READ below RDWR. -/
def permLe : Perm → Perm → Bool
  | Perm.none, _ => true
  | Perm.read, Perm.none => false
  | Perm.read, _ => true
  | Perm.rdwr, Perm.rdwr => true
  | Perm.rdwr, _ => false

/-- A page-table entry: the PAGE_RESIDENT, PAGE_ACCESSED and PAGE_DIRTY
bits together with the permission field of the pte_t bit-packed entry of
virtualmem.c, modelled as a record. -/
structure PTE where
  resident : Bool
  accessed : Bool
  dirty : Bool
  perm : Perm
  deriving DecidableEq, Repr

/-- The all-zero page-table entry: not resident, not accessed, not dirty,
permission NONE.  This is what clear_page_entry writes and what the
page table holds after vmem_init clears it with memset. -/
def PTE.clear : PTE := ⟨false, false, false, Perm.none⟩

/-- Observable actions of the virtual memory core, in the order the C code
performs them.  permSet records a stored-permission update made by
set_page_permission, with the previous permission and the resident and
dirty bits of the entry at the time of the update. -/
inductive Event where
  | chooseVictim (victim : Nat)
  | mmapCall (page : Nat)
  | munmapCall (page : Nat)
  | swapRead (page off len : Nat)
  | swapWrite (page off len : Nat)
  | swapExtend (off len : Nat)
  | mprotectCall (page : Nat) (perm : Perm)
  | permSet (page : Nat) (old new : Perm) (wasResident wasDirty : Bool)
  | clearEntry (page : Nat)
  | policyMapped (page : Nat)
  | policyUnmapped (page : Nat)
  deriving DecidableEq, Repr

/-- The two SIGSEGV signal codes the handler accepts: SEGV_MAPERR for a
fault on an unmapped address and SEGV_ACCERR for a permission violation. -/
inductive SigCode where
  | maperr : SigCode
  | accerr : SigCode
  deriving DecidableEq, Repr

/-- Result of an operation that may call abort().  The aborted constructor
carries the state at the moment abort() runs. -/
inductive Res (α : Type) where
  | ok : α → Res α
  | aborted : α → Res α
  deriving DecidableEq, Repr

/-- True when the operation completed without calling abort(). -/
def Res.isOk {α : Type} : Res α → Bool
  | Res.ok _ => true
  | Res.aborted _ => false

/-- The global mutable state of virtualmem.c: the page table, the live
mapping (which page ranges are mmapped and with what protection), the
resident and fault counters, the swap file size, and the event trace. -/
structure VMState where
  pageTable : List PTE
  mapped : List Bool
  liveProt : List Perm
  numResident : Nat
  maxResident : Nat
  numFaults : Nat
  numLoads : Nat
  swapSize : Nat
  events : List Event
  deriving DecidableEq, Repr

/-- Reads the page-table entry for a page (page_table[page] in the C). -/
def pte (s : VMState) (page : Nat) : PTE := s.pageTable.getD page PTE.clear

/-- Returns the resident bit (is_page_resident in the C). -/
def is_page_resident (s : VMState) (page : Nat) : Bool := (pte s page).resident

/-- Returns the accessed bit (is_page_accessed in the C). -/
def is_page_accessed (s : VMState) (page : Nat) : Bool := (pte s page).accessed

/-- Returns the dirty bit (is_page_dirty in the C). -/
def is_page_dirty (s : VMState) (page : Nat) : Bool := (pte s page).dirty

/-- Returns the permission field with the flag bits masked out
(get_page_permission in the C). -/
def get_page_permission (s : VMState) (page : Nat) : Perm := (pte s page).perm

/-- Sets the resident bit (set_page_resident in the C). -/
def set_page_resident (s : VMState) (page : Nat) : VMState :=
  { s with pageTable := s.pageTable.set page { pte s page with resident := true } }

/-- Sets the accessed bit (set_page_accessed in the C). -/
def set_page_accessed (s : VMState) (page : Nat) : VMState :=
  { s with pageTable := s.pageTable.set page { pte s page with accessed := true } }

/-- Sets the dirty bit (set_page_dirty in the C). -/
def set_page_dirty (s : VMState) (page : Nat) : VMState :=
  { s with pageTable := s.pageTable.set page { pte s page with dirty := true } }

/-- Zeroes the whole entry for a page (clear_page_entry in the C). -/
def clear_page_entry (s : VMState) (page : Nat) : VMState :=
  { s with pageTable := s.pageTable.set page PTE.clear }

/-- set_page_permission of the C code.  It first calls mprotect on the
live mapping of the page (outcome given by mprotOk); only after that call
succeeds does it replace the permission field of the page-table entry.
When mprotect fails the C code aborts with the page table untouched. -/
def set_page_permission (mprotOk : Bool) (page : Nat) (perm : Perm)
    (s : VMState) : Res VMState :=
  if mprotOk then
    Res.ok { s with
      liveProt := s.liveProt.set page perm,
      pageTable := s.pageTable.set page { pte s page with perm := perm },
      events := s.events ++ [Event.mprotectCall page perm,
        Event.permSet page (pte s page).perm perm
          (pte s page).resident (pte s page).dirty] }
  else
    Res.aborted { s with
      events := s.events ++ [Event.mprotectCall page perm] }

/-- page_to_addr of the C code: asserts page < NUM_PAGES (modelled as
returning none on assertion failure) and returns
vmem_start + page * PAGE_SIZE. -/
def page_to_addr (NP PS start : Nat) (page : Nat) : Option Nat :=
  if page < NP then some (start + page * PS) else none

/-- addr_to_page of the C code: asserts vmem_start ≤ addr < vmem_end
(modelled as returning none on assertion failure) and returns
(addr - vmem_start) / PAGE_SIZE. -/
def addr_to_page (NP PS start : Nat) (addr : Nat) : Option Nat :=
  if start ≤ addr ∧ addr < start + NP * PS then some ((addr - start) / PS)
  else none

/-- The state established by vmem_init: zeroed page table, no live
mappings, counters reset, and the swap file extended by an lseek to
offset NUM_PAGES * PAGE_SIZE followed by a single one-byte write there,
which makes the file NUM_PAGES * PAGE_SIZE + 1 bytes long. -/
def vmem_init (NP PS maxR : Nat) : VMState :=
  { pageTable := List.replicate NP PTE.clear,
    mapped := List.replicate NP false,
    liveProt := List.replicate NP Perm.none,
    numResident := 0,
    maxResident := maxR,
    numFaults := 0,
    numLoads := 0,
    swapSize := NP * PS + 1,
    events := [Event.swapExtend (NP * PS) 1] }

/-- map_page of the C code.  Asserts the page index in range and the page
not already resident; increments num_resident and aborts if it exceeds
max_resident; then mmaps the page range read-write, reads the page slot
from the swap file, sets the resident bit, narrows the protection to
initial_perm via set_page_permission, bumps num_loads and notifies the
policy. -/
def map_page (PS : Nat) (page : Nat) (initial_perm : Perm)
    (s : VMState) : Res VMState :=
  if page < s.pageTable.length then
    if is_page_resident s page then Res.aborted s
    else
      let s1 := { s with numResident := s.numResident + 1 }
      if s1.maxResident < s1.numResident then Res.aborted s1
      else
        let s2 := { s1 with
          mapped := s1.mapped.set page true,
          liveProt := s1.liveProt.set page Perm.rdwr,
          events := s1.events ++ [Event.mmapCall page] }
        let s3 := { s2 with
          events := s2.events ++ [Event.swapRead page (page * PS) PS] }
        let s4 := set_page_resident s3 page
        match set_page_permission true page initial_perm s4 with
        | Res.ok s5 =>
            Res.ok { s5 with
              numLoads := s5.numLoads + 1,
              events := s5.events ++ [Event.policyMapped page] }
        | Res.aborted s5 => Res.aborted s5
  else Res.aborted s

/-- unmap_page of the C code.  Asserts the page index in range,
num_resident positive and the page resident; if the page is dirty it
seeks to the slot, grants read permission via set_page_permission and
writes the full page to the slot; then munmaps the range, clears the
page-table entry, decrements num_resident and notifies the policy. -/
def unmap_page (PS : Nat) (page : Nat) (s : VMState) : Res VMState :=
  if page < s.pageTable.length then
    if s.numResident = 0 then Res.aborted s
    else if is_page_resident s page then
      let flush : Res VMState :=
        if is_page_dirty s page then
          match set_page_permission true page Perm.read s with
          | Res.ok s1 =>
              Res.ok { s1 with
                swapSize := max s1.swapSize (page * PS + PS),
                events := s1.events ++ [Event.swapWrite page (page * PS) PS] }
          | Res.aborted s1 => Res.aborted s1
        else Res.ok s
      match flush with
      | Res.ok s1 =>
          let s2 := { s1 with
            mapped := s1.mapped.set page false,
            liveProt := s1.liveProt.set page Perm.none,
            events := s1.events ++ [Event.munmapCall page] }
          let s3 := { clear_page_entry s2 page with
            events := s2.events ++ [Event.clearEntry page] }
          Res.ok { s3 with
            numResident := s3.numResident - 1,
            events := s3.events ++ [Event.policyUnmapped page] }
      | Res.aborted s1 => Res.aborted s1
    else Res.aborted s
  else Res.aborted s

/-- sigsegv_handler of the C code, for one delivered fault.  The victim
parameter is the page the external replacement policy would return from
choose_victim_page (the policy algorithm is outside the core).  Faults
outside the reserved range abort; in-range faults bump num_faults and are
dispatched on the signal code exactly as the C switch does. -/
def sigsegv_handler (NP PS start : Nat) (victim addr : Nat)
    (code : SigCode) (s : VMState) : Res VMState :=
  if addr < start ∨ start + NP * PS ≤ addr then Res.aborted s
  else
    let s0 := { s with numFaults := s.numFaults + 1 }
    let page := (addr - start) / PS
    if NP ≤ page then Res.aborted s0
    else
      match code with
      | SigCode.maperr =>
          if s0.maxResident < s0.numResident then Res.aborted s0
          else
            let afterEvict : Res VMState :=
              if s0.numResident = s0.maxResident then
                let s1 := { s0 with
                  events := s0.events ++ [Event.chooseVictim victim] }
                if is_page_resident s1 victim then
                  match unmap_page PS victim s1 with
                  | Res.ok s2 =>
                      if is_page_resident s2 victim then Res.aborted s2
                      else Res.ok s2
                  | Res.aborted s2 => Res.aborted s2
                else Res.aborted s1
              else Res.ok s0
            match afterEvict with
            | Res.ok s2 =>
                if s2.maxResident ≤ s2.numResident then Res.aborted s2
                else map_page PS page Perm.none s2
            | Res.aborted s2 => Res.aborted s2
      | SigCode.accerr =>
          let s1 := set_page_accessed s0 page
          match get_page_permission s1 page with
          | Perm.none => set_page_permission true page Perm.read s1
          | Perm.read =>
              match set_page_permission true page Perm.rdwr s1 with
              | Res.ok s2 => Res.ok (set_page_dirty s2 page)
              | Res.aborted s2 => Res.aborted s2
          | Perm.rdwr => Res.aborted s1

/-- One delivered SIGSEGV: the faulting address, the signal code, and the
page the replacement policy would pick if consulted. -/
structure Trap where
  victim : Nat
  addr : Nat
  code : SigCode
  deriving DecidableEq, Repr

/-- The page a trap faults on, as the handler computes it. -/
def Trap.page (PS start : Nat) (t : Trap) : Nat := (t.addr - start) / PS

/-- Runs a sequence of trap resolutions, stopping at the first abort. -/
def runTraps (NP PS start : Nat) (ts : List Trap) (s : VMState) :
    Res VMState :=
  match ts with
  | [] => Res.ok s
  | t :: rest =>
      match sigsegv_handler NP PS start t.victim t.addr t.code s with
      | Res.ok s1 => runTraps NP PS start rest s1
      | Res.aborted s1 => Res.aborted s1

/-- Hardware well-formedness of one delivered trap: a SEGV_ACCERR fault is
only delivered on a page that has a live mapping, which the system keeps
in step with the resident bit.  (A SEGV_MAPERR on a resident page is
handled by the code but cannot arise from the hardware.) -/
def trapWF (PS start : Nat) (s : VMState) (t : Trap) : Bool :=
  t.code != SigCode.accerr || is_page_resident s (t.page PS start)

/-- Well-formedness of a whole delivered trap sequence, each trap checked
in the state in which it is delivered. -/
def TrapsOK (NP PS start : Nat) (s : VMState) : List Trap → Bool
  | [] => true
  | t :: rest =>
      trapWF PS start s t &&
      (match sigsegv_handler NP PS start t.victim t.addr t.code s with
       | Res.ok s1 => TrapsOK NP PS start s1 rest
       | Res.aborted _ => true)

/-- Number of page-table entries whose resident bit is set. -/
def residentCount (tbl : List PTE) : Nat := tbl.countP (fun e => e.resident)

/-- The state invariant of the virtual memory core: the page table has its
fixed NUM_PAGES length, num_resident counts exactly the resident entries
and stays within max_resident, every dirty page has permission RDWR, and
a non-resident page has a fully cleared entry. -/
def Inv (NP : Nat) (s : VMState) : Prop :=
  s.pageTable.length = NP ∧
  s.numResident = residentCount s.pageTable ∧
  s.numResident ≤ s.maxResident ∧
  (∀ p < s.pageTable.length, (pte s p).dirty = true →
    (pte s p).perm = Perm.rdwr) ∧
  (∀ p < s.pageTable.length, (pte s p).resident = false →
    pte s p = PTE.clear)

/-- The state an operation left behind, whether it completed or aborted. -/
def resState : Res VMState → VMState
  | Res.ok s => s
  | Res.aborted s => s

/-- getD after set at the same in-range index yields the new element. -/
theorem getD_set_self {α : Type} (l : List α) (i : Nat) (a d : α)
    (h : i < l.length) : (l.set i a).getD i d = a := by
  rw [List.getD_eq_getElem?_getD, List.getElem?_set_self h]
  rfl

/-- getD after set at a different index is unchanged. -/
theorem getD_set_ne {α : Type} (l : List α) (i j : Nat) (a d : α)
    (h : i ≠ j) : (l.set i a).getD j d = l.getD j d := by
  rw [List.getD_eq_getElem?_getD, List.getElem?_set_ne h,
    List.getD_eq_getElem?_getD]

/-- countP after an in-range set, in additive form. -/
theorem countP_set {α : Type} (p : α → Bool) (l : List α) (i : Nat)
    (a d : α) (h : i < l.length) :
    (l.set i a).countP p + (if p (l.getD i d) then 1 else 0) =
      l.countP p + (if p a then 1 else 0) := by
  induction l generalizing i with
  | nil => simp at h
  | cons x xs ih =>
      cases i with
      | zero => simp [List.countP_cons, List.getD]; omega
      | succ n =>
          have hn : n < xs.length := by simpa using h
          have := ih n hn
          simp only [List.set, List.countP_cons, List.getD_cons_succ]
          omega

/-- The events map_page appends, in order: mmap the range, read the slot
from the swap file, mprotect to the initial permission with the matching
page-table update, and the policy notification.  old is the page-table
entry before the call. -/
def mapTrace (PS page : Nat) (old : PTE) (perm : Perm) : List Event :=
  [Event.mmapCall page, Event.swapRead page (page * PS) PS,
   Event.mprotectCall page perm,
   Event.permSet page old.perm perm true old.dirty,
   Event.policyMapped page]

/-- The events unmap_page appends, in order: when the entry is dirty, an
mprotect to READ with its page-table update followed by the full-slot
swap write; then the munmap, the entry clear and the policy
notification.  old is the page-table entry before the call. -/
def unmapTrace (PS page : Nat) (old : PTE) : List Event :=
  (if old.dirty then
    [Event.mprotectCall page Perm.read,
     Event.permSet page old.perm Perm.read old.resident old.dirty,
     Event.swapWrite page (page * PS) PS]
   else []) ++
  [Event.munmapCall page, Event.clearEntry page, Event.policyUnmapped page]

/-- Characterisation of a successful map_page call: under its
preconditions it completes, setting the resident bit and the initial
permission on the one page, bumping both counters and appending exactly
mapTrace. -/
theorem map_page_ok (PS page : Nat) (perm : Perm) (s : VMState)
    (h1 : page < s.pageTable.length)
    (h2 : is_page_resident s page = false)
    (h3 : s.numResident < s.maxResident) :
    map_page PS page perm s = Res.ok { s with
      pageTable := s.pageTable.set page
        ⟨true, (pte s page).accessed, (pte s page).dirty, perm⟩,
      mapped := s.mapped.set page true,
      liveProt := s.liveProt.set page perm,
      numResident := s.numResident + 1,
      numLoads := s.numLoads + 1,
      events := s.events ++ mapTrace PS page (pte s page) perm } := by
  have h4 : ¬ (s.maxResident < s.numResident + 1) := by omega
  unfold map_page
  rw [if_pos h1, if_neg (by rw [h2]; exact Bool.false_ne_true)]
  simp only [h4, if_false, set_page_permission, set_page_resident, if_true]
  simp only [pte] at *
  rw [getD_set_self _ _ _ _ (by simpa using h1)]
  simp [List.set_set, mapTrace]

/-- Characterisation of a successful unmap_page call: under its
preconditions it completes, clearing the one entry, removing the live
mapping, decrementing the counter, extending the swap file only when the
page was dirty, and appending exactly unmapTrace. -/
theorem unmap_page_ok (PS page : Nat) (s : VMState)
    (h1 : page < s.pageTable.length)
    (h2 : is_page_resident s page = true)
    (h3 : 0 < s.numResident) :
    unmap_page PS page s = Res.ok { s with
      pageTable := s.pageTable.set page PTE.clear,
      mapped := s.mapped.set page false,
      liveProt := s.liveProt.set page Perm.none,
      numResident := s.numResident - 1,
      swapSize := if is_page_dirty s page then
        max s.swapSize (page * PS + PS) else s.swapSize,
      events := s.events ++ unmapTrace PS page (pte s page) } := by
  unfold unmap_page
  rw [if_pos h1, if_neg (by omega), if_pos h2]
  by_cases hd : is_page_dirty s page = true
  · simp only [hd, if_true, set_page_permission, clear_page_entry]
    simp only [is_page_dirty] at hd
    simp [List.set_set, unmapTrace, hd]
  · have hd' : is_page_dirty s page = false := by
      cases h : is_page_dirty s page
      · rfl
      · exact absurd h hd
    simp only [hd', Bool.false_eq_true, if_false, clear_page_entry]
    simp only [is_page_dirty] at hd'
    simp [unmapTrace, hd']

/-- getD out of range yields the default. -/
theorem getD_out {α : Type} (l : List α) (i : Nat) (d : α)
    (h : l.length ≤ i) : l.getD i d = d := by
  rw [List.getD_eq_getElem?_getD, List.getElem?_eq_none h]
  rfl

/-- Only an in-range page can have its resident bit set. -/
theorem resident_lt_length (s : VMState) (v : Nat)
    (h : is_page_resident s v = true) : v < s.pageTable.length := by
  by_contra hc
  have : pte s v = PTE.clear := getD_out _ _ _ (by omega)
  rw [is_page_resident, this] at h
  exact Bool.false_ne_true h

/-- A resident page forces a positive resident count. -/
theorem residentCount_pos (s : VMState) (v : Nat)
    (h : is_page_resident s v = true) : 0 < residentCount s.pageTable := by
  have hv := resident_lt_length s v h
  rw [residentCount, List.countP_pos_iff]
  refine ⟨s.pageTable.getD v PTE.clear, ?_, h⟩
  rw [List.getD_eq_getElem?_getD, List.getElem?_eq_getElem hv]
  exact List.getElem_mem hv

/-- The dirty clause of the invariant, without the range bound. -/
theorem Inv.dirty_rdwr {NP : Nat} {s : VMState} (h : Inv NP s) (p : Nat)
    (hd : (pte s p).dirty = true) : (pte s p).perm = Perm.rdwr := by
  by_cases hp : p < s.pageTable.length
  · exact h.2.2.2.1 p hp hd
  · rw [pte, getD_out _ _ _ (by omega)] at hd
    exact absurd hd Bool.false_ne_true

/-- The cleared-when-not-resident clause of the invariant, without the
range bound. -/
theorem Inv.clear_of_not_resident {NP : Nat} {s : VMState} (h : Inv NP s)
    (p : Nat) (hr : (pte s p).resident = false) : pte s p = PTE.clear := by
  by_cases hp : p < s.pageTable.length
  · exact h.2.2.2.2 p hp hr
  · exact getD_out _ _ _ (by omega)

/-- map_page aborts when the page index is out of range. -/
theorem map_page_abort_len (PS page : Nat) (perm : Perm) (s : VMState)
    (h : ¬ page < s.pageTable.length) :
    map_page PS page perm s = Res.aborted s := by
  unfold map_page
  rw [if_neg h]

/-- map_page aborts when the page is already resident. -/
theorem map_page_abort_resident (PS page : Nat) (perm : Perm) (s : VMState)
    (h1 : page < s.pageTable.length)
    (h2 : is_page_resident s page = true) :
    map_page PS page perm s = Res.aborted s := by
  unfold map_page
  rw [if_pos h1, if_pos h2]

/-- map_page increments num_resident and then aborts when that would
exceed max_resident. -/
theorem map_page_abort_capacity (PS page : Nat) (perm : Perm) (s : VMState)
    (h1 : page < s.pageTable.length)
    (h2 : is_page_resident s page = false)
    (h3 : s.maxResident ≤ s.numResident) :
    map_page PS page perm s =
      Res.aborted { s with numResident := s.numResident + 1 } := by
  unfold map_page
  rw [if_pos h1, if_neg (by rw [h2]; exact Bool.false_ne_true)]
  simp only
  rw [if_pos (by omega)]

/-- The faulting address start + page * PAGE_SIZE lies inside the
reserved range when page < NUM_PAGES. -/
theorem addr_in_range (NP PS start page : Nat) (hPS : 0 < PS)
    (hpage : page < NP) :
    ¬ (start + page * PS < start ∨ start + NP * PS ≤ start + page * PS) := by
  push_neg
  refine ⟨by omega, ?_⟩
  have h := (Nat.mul_lt_mul_right hPS).mpr hpage
  omega

/-- The handler recovers the page index from the faulting address. -/
theorem addr_page_calc (PS start page : Nat) (hPS : 0 < PS) :
    (start + page * PS - start) / PS = page := by
  rw [Nat.add_sub_cancel_left, Nat.mul_div_cancel _ hPS]

/-- Characterisation of the SEGV_ACCERR dispatch when the stored
permission is NONE: the accessed bit is set, the permission is upgraded
to READ, and nothing else in the entry changes. -/
theorem sigsegv_accerr_none (NP PS start victim addr page : Nat) (s : VMState)
    (hlo : start ≤ addr) (hhi : addr < start + NP * PS)
    (hpc : (addr - start) / PS = page) (hpage : page < NP)
    (hlen : page < s.pageTable.length)
    (hperm : get_page_permission s page = Perm.none) :
    sigsegv_handler NP PS start victim addr SigCode.accerr s =
      Res.ok { s with
        numFaults := s.numFaults + 1,
        pageTable := s.pageTable.set page
          ⟨(pte s page).resident, true, (pte s page).dirty, Perm.read⟩,
        liveProt := s.liveProt.set page Perm.read,
        events := s.events ++ [Event.mprotectCall page Perm.read,
          Event.permSet page Perm.none Perm.read
            (pte s page).resident (pte s page).dirty] } := by
  unfold sigsegv_handler
  rw [if_neg (by push_neg; exact ⟨hlo, hhi⟩)]
  simp only [hpc]
  rw [if_neg (Nat.not_le.mpr hpage)]
  simp only [set_page_accessed, get_page_permission, set_page_permission,
    if_true, pte]
  rw [getD_set_self _ _ _ _ (by simpa using hlen)]
  rw [get_page_permission, pte, List.getD_eq_getElem?_getD] at hperm
  simp [hperm, List.set_set]

/-- Characterisation of the SEGV_ACCERR dispatch when the stored
permission is READ: the accessed bit is set, the permission is upgraded
to READ-WRITE and the dirty bit is set. -/
theorem sigsegv_accerr_read (NP PS start victim addr page : Nat) (s : VMState)
    (hlo : start ≤ addr) (hhi : addr < start + NP * PS)
    (hpc : (addr - start) / PS = page) (hpage : page < NP)
    (hlen : page < s.pageTable.length)
    (hperm : get_page_permission s page = Perm.read) :
    sigsegv_handler NP PS start victim addr SigCode.accerr s =
      Res.ok { s with
        numFaults := s.numFaults + 1,
        pageTable := s.pageTable.set page
          ⟨(pte s page).resident, true, true, Perm.rdwr⟩,
        liveProt := s.liveProt.set page Perm.rdwr,
        events := s.events ++ [Event.mprotectCall page Perm.rdwr,
          Event.permSet page Perm.read Perm.rdwr
            (pte s page).resident (pte s page).dirty] } := by
  unfold sigsegv_handler
  rw [if_neg (by push_neg; exact ⟨hlo, hhi⟩)]
  simp only [hpc]
  rw [if_neg (Nat.not_le.mpr hpage)]
  simp only [set_page_accessed, get_page_permission, set_page_permission,
    set_page_dirty, if_true, pte]
  rw [getD_set_self _ _ _ _ (by simpa using hlen)]
  rw [get_page_permission, pte, List.getD_eq_getElem?_getD] at hperm
  simp only [hperm]
  rw [getD_set_self _ _ _ _ (by simpa using hlen)]
  simp [hperm, List.set_set]

/-- Characterisation of the SEGV_ACCERR dispatch when the stored
permission is already READ-WRITE: the handler aborts after setting the
accessed bit. -/
theorem sigsegv_accerr_rdwr (NP PS start victim addr page : Nat) (s : VMState)
    (hlo : start ≤ addr) (hhi : addr < start + NP * PS)
    (hpc : (addr - start) / PS = page) (hpage : page < NP)
    (hperm : get_page_permission s page = Perm.rdwr) :
    sigsegv_handler NP PS start victim addr SigCode.accerr s =
      Res.aborted { s with
        numFaults := s.numFaults + 1,
        pageTable := s.pageTable.set page
          ⟨(pte s page).resident, true, (pte s page).dirty,
            (pte s page).perm⟩ } := by
  have hlen : page < s.pageTable.length := by
    by_contra hc
    rw [get_page_permission, pte, getD_out _ _ _ (by omega)] at hperm
    exact Perm.noConfusion hperm
  unfold sigsegv_handler
  rw [if_neg (by push_neg; exact ⟨hlo, hhi⟩)]
  simp only [hpc]
  rw [if_neg (Nat.not_le.mpr hpage)]
  simp only [set_page_accessed, get_page_permission, pte]
  rw [getD_set_self _ _ _ _ (by simpa using hlen)]
  rw [get_page_permission, pte, List.getD_eq_getElem?_getD] at hperm
  simp [hperm]

/-- Characterisation of the SEGV_MAPERR dispatch below capacity: the
replacement policy is not consulted and the faulting page is mapped with
permission NONE directly. -/
theorem sigsegv_maperr_below (NP PS start victim addr page : Nat) (s : VMState)
    (hlo : start ≤ addr) (hhi : addr < start + NP * PS)
    (hpc : (addr - start) / PS = page) (hpage : page < NP)
    (hlt : s.numResident < s.maxResident) :
    sigsegv_handler NP PS start victim addr SigCode.maperr s =
      map_page PS page Perm.none { s with numFaults := s.numFaults + 1 } := by
  have h2 : ¬ (s.maxResident < s.numResident) := by omega
  have h3 : ¬ (s.numResident = s.maxResident) := by omega
  have h4 : ¬ (s.maxResident ≤ s.numResident) := by omega
  unfold sigsegv_handler
  rw [if_neg (by push_neg; exact ⟨hlo, hhi⟩)]
  simp only [hpc]
  rw [if_neg (Nat.not_le.mpr hpage)]
  simp [h2, h3, h4]

/-- Characterisation of the SEGV_MAPERR dispatch at capacity when the
replacement policy returns a non-resident victim: the handler aborts on
the assert right after recording the policy query. -/
theorem sigsegv_maperr_badvictim (NP PS start victim addr page : Nat)
    (s : VMState) (hlo : start ≤ addr) (hhi : addr < start + NP * PS)
    (hpc : (addr - start) / PS = page) (hpage : page < NP)
    (hEq : s.numResident = s.maxResident)
    (hres : is_page_resident s victim = false) :
    sigsegv_handler NP PS start victim addr SigCode.maperr s =
      Res.aborted { s with
        numFaults := s.numFaults + 1,
        events := s.events ++ [Event.chooseVictim victim] } := by
  have h2 : ¬ (s.maxResident < s.numResident) := by omega
  unfold sigsegv_handler
  rw [if_neg (by push_neg; exact ⟨hlo, hhi⟩)]
  simp only [hpc]
  rw [if_neg (Nat.not_le.mpr hpage)]
  simp only [is_page_resident, pte, List.getD_eq_getElem?_getD] at hres
  simp [h2, hEq, is_page_resident, pte, hres]

/-- Characterisation of the SEGV_MAPERR dispatch at capacity with a
resident victim: the policy is consulted, the victim is unmapped in full,
and only then is the faulting page mapped with permission NONE. -/
theorem sigsegv_maperr_atcap (NP PS start victim addr page : Nat) (s : VMState)
    (hlo : start ≤ addr) (hhi : addr < start + NP * PS)
    (hpc : (addr - start) / PS = page) (hpage : page < NP)
    (hEq : s.numResident = s.maxResident)
    (hres : is_page_resident s victim = true)
    (hnz : 0 < s.numResident) :
    sigsegv_handler NP PS start victim addr SigCode.maperr s =
      map_page PS page Perm.none { s with
        numFaults := s.numFaults + 1,
        pageTable := s.pageTable.set victim PTE.clear,
        mapped := s.mapped.set victim false,
        liveProt := s.liveProt.set victim Perm.none,
        numResident := s.numResident - 1,
        swapSize := if is_page_dirty s victim then
          max s.swapSize (victim * PS + PS) else s.swapSize,
        events := s.events ++ [Event.chooseVictim victim] ++
          unmapTrace PS victim (pte s victim) } := by
  have hvl : victim < s.pageTable.length := resident_lt_length s victim hres
  have h2 : ¬ (s.maxResident < s.numResident) := by omega
  have h5 : ¬ (s.maxResident ≤ s.maxResident - 1) := by omega
  unfold sigsegv_handler
  rw [if_neg (by push_neg; exact ⟨hlo, hhi⟩)]
  simp only [hpc]
  rw [if_neg (Nat.not_le.mpr hpage)]
  have hu := unmap_page_ok PS victim
    { s with
      numFaults := s.numFaults + 1,
      events := s.events ++ [Event.chooseVictim victim] }
    (by simpa using hvl) (by simpa [is_page_resident, pte] using hres)
    (by simpa using hnz)
  rw [hEq] at hu
  simp only [is_page_resident, is_page_dirty, pte, unmapTrace,
    List.getD_eq_getElem?_getD] at hu hres ⊢
  rw [List.getElem?_eq_getElem hvl, Option.getD_some] at hres
  simp [h2, hEq, hu, hres, hvl, PTE.clear, List.getElem?_set,
    List.append_assoc, h5]

/-- An in-range faulting address always yields a page below NUM_PAGES. -/
theorem fault_page_lt (NP PS start addr : Nat) (hPS : 0 < PS)
    (hlo : start ≤ addr) (hhi : addr < start + NP * PS) :
    (addr - start) / PS < NP := by
  have h : addr - start < PS * NP := by
    have h2 : addr - start < NP * PS := by omega
    rw [Nat.mul_comm] at h2
    exact h2
  exact Nat.div_lt_of_lt_mul h

/-- A successful map_page call certifies all three of its guards. -/
theorem map_page_ok_inversion (PS page : Nat) (perm : Perm)
    (s s' : VMState) (h : map_page PS page perm s = Res.ok s') :
    page < s.pageTable.length ∧ is_page_resident s page = false ∧
      s.numResident < s.maxResident := by
  by_cases h1 : page < s.pageTable.length
  · by_cases h2 : is_page_resident s page = true
    · rw [map_page_abort_resident PS page perm s h1 h2] at h
      exact Res.noConfusion h
    · have h2f : is_page_resident s page = false := by
        revert h2; cases is_page_resident s page <;> simp
      by_cases h3 : s.numResident < s.maxResident
      · exact ⟨h1, h2f, h3⟩
      · rw [map_page_abort_capacity PS page perm s h1 h2f (by omega)] at h
        exact Res.noConfusion h
  · rw [map_page_abort_len PS page perm s h1] at h
    exact Res.noConfusion h

/-- The invariant survives a successful map_page call. -/
theorem inv_map_page (NP PS page : Nat) (perm : Perm) (s s' : VMState)
    (hInv : Inv NP s) (h : map_page PS page perm s = Res.ok s') :
    Inv NP s' := by
  obtain ⟨h1, h2, h3⟩ := map_page_ok_inversion PS page perm s s' h
  rw [map_page_ok PS page perm s h1 h2 h3] at h
  obtain ⟨hlen, hcount, hle, hdirty, hclear⟩ := hInv
  injection h with h
  subst h
  have hold : (pte s page).resident = false := h2
  have hclear2 := hclear page (by simpa using h1) hold
  refine ⟨?_, ?_, by simpa using h3, ?_, ?_⟩
  · simpa using hlen
  · have hc := countP_set (fun e => e.resident) s.pageTable page
      ⟨true, (pte s page).accessed, (pte s page).dirty, perm⟩ PTE.clear h1
    rw [pte, List.getD_eq_getElem?_getD] at hold
    simp [hold] at hc
    simp only [residentCount] at hcount ⊢
    omega
  · intro p hp hd
    simp only [pte] at hd ⊢
    by_cases hpq : p = page
    · subst hpq
      rw [getD_set_self _ _ _ _ h1] at hd
      simp only at hd
      have hcl := hclear p (by simpa using h1) hold
      rw [pte] at hcl
      rw [hcl] at hd
      simp [PTE.clear] at hd
    · rw [getD_set_ne _ _ _ _ _ (fun hx => hpq hx.symm)] at hd ⊢
      exact hdirty p (by simpa using hp) hd
  · intro p hp hr
    simp only [pte] at hr ⊢
    by_cases hpq : p = page
    · subst hpq
      rw [getD_set_self _ _ _ _ h1] at hr
      simp at hr
    · rw [getD_set_ne _ _ _ _ _ (fun hx => hpq hx.symm)] at hr ⊢
      exact hclear p (by simpa using hp) hr

/-- The invariant survives one successfully resolved trap.  The trap must
be well formed in the hardware sense (trapWF): a permission-violation
fault is only delivered on a resident page. -/
theorem inv_sigsegv (NP PS start : Nat) (t : Trap) (s s' : VMState)
    (hPS : 0 < PS) (hInv : Inv NP s) (hwf : trapWF PS start s t = true)
    (h : sigsegv_handler NP PS start t.victim t.addr t.code s = Res.ok s') :
    Inv NP s' := by
  by_cases hrange : t.addr < start ∨ start + NP * PS ≤ t.addr
  · unfold sigsegv_handler at h
    rw [if_pos hrange] at h
    exact Res.noConfusion h
  · push_neg at hrange
    obtain ⟨hlo, hhi⟩ := hrange
    have hpage : (t.addr - start) / PS < NP :=
      fault_page_lt NP PS start t.addr hPS hlo hhi
    obtain ⟨hlen, hcount, hle, hdirty, hclear⟩ := hInv
    cases hc : t.code with
    | maperr =>
        by_cases hcap : s.numResident = s.maxResident
        · by_cases hres : is_page_resident s t.victim = true
          · have hnz : 0 < s.numResident := by
              have := residentCount_pos s t.victim hres
              omega
            rw [hc, sigsegv_maperr_atcap NP PS start t.victim t.addr _ s hlo
              hhi rfl hpage hcap hres hnz] at h
            refine inv_map_page NP PS _ Perm.none _ s' ?_ h
            have hvl := resident_lt_length s t.victim hres
            refine ⟨by simpa using hlen, ?_, by simpa using Nat.sub_le _ _ |>.trans hle, ?_, ?_⟩
            · show s.numResident - 1 = residentCount (s.pageTable.set t.victim PTE.clear)
              have hcs := countP_set (fun e => e.resident) s.pageTable t.victim
                PTE.clear PTE.clear hvl
              rw [is_page_resident, pte, List.getD_eq_getElem?_getD] at hres
              simp [PTE.clear] at hcs hres
              simp [hres] at hcs
              rw [residentCount] at hcount ⊢
              simp only [PTE.clear]
              omega
            · intro p hp hd
              simp only [pte] at hd ⊢
              by_cases hpq : p = t.victim
              · subst hpq
                rw [getD_set_self _ _ _ _ hvl] at hd
                simp [PTE.clear] at hd
              · rw [getD_set_ne _ _ _ _ _ (fun hx => hpq hx.symm)] at hd ⊢
                exact hdirty p (by simpa using hp) hd
            · intro p hp hr
              simp only [pte] at hr ⊢
              by_cases hpq : p = t.victim
              · subst hpq
                rw [getD_set_self _ _ _ _ hvl]
              · rw [getD_set_ne _ _ _ _ _ (fun hx => hpq hx.symm)] at hr ⊢
                exact hclear p (by simpa using hp) hr
          · have hres' : is_page_resident s t.victim = false := by
              revert hres; cases is_page_resident s t.victim <;> simp
            rw [hc, sigsegv_maperr_badvictim NP PS start t.victim t.addr _ s
              hlo hhi rfl hpage hcap hres'] at h
            exact Res.noConfusion h
        · by_cases hlt : s.numResident < s.maxResident
          · rw [hc, sigsegv_maperr_below NP PS start t.victim t.addr _ s hlo
              hhi rfl hpage hlt] at h
            exact inv_map_page NP PS _ Perm.none
              { s with numFaults := s.numFaults + 1 } s'
              ⟨hlen, hcount, (by omega : s.numResident ≤ s.maxResident),
                hdirty, hclear⟩ h
          · omega
    | accerr =>
        have hres : is_page_resident s ((t.addr - start) / PS) = true := by
          rw [trapWF, hc] at hwf
          simpa [Trap.page] using hwf
        have hplen : (t.addr - start) / PS < s.pageTable.length :=
          resident_lt_length s _ hres
        cases hperm : get_page_permission s ((t.addr - start) / PS) with
        | none =>
            rw [hc, sigsegv_accerr_none NP PS start t.victim t.addr _ s hlo
              hhi rfl hpage hplen hperm] at h
            injection h with h
            subst h
            have hnd : (pte s ((t.addr - start) / PS)).dirty = false := by
              cases hx : (pte s ((t.addr - start) / PS)).dirty
              · rfl
              · have := hdirty _ (by simpa using hplen) hx
                rw [get_page_permission] at hperm
                rw [hperm] at this
                exact Perm.noConfusion this
            refine ⟨by simpa using hlen, ?_, by simpa using hle, ?_, ?_⟩
            · show s.numResident = residentCount (s.pageTable.set _ _)
              have hcs := countP_set (fun e => e.resident) s.pageTable
                ((t.addr - start) / PS)
                ⟨(pte s ((t.addr - start) / PS)).resident, true,
                  (pte s ((t.addr - start) / PS)).dirty, Perm.read⟩
                PTE.clear hplen
              simp only [pte] at hcs ⊢
              rw [residentCount] at hcount ⊢
              omega
            · intro p hp hd
              simp only [pte] at hd ⊢
              by_cases hpq : p = (t.addr - start) / PS
              · subst hpq
                rw [getD_set_self _ _ _ _ hplen] at hd
                simp only at hd
                rw [pte] at hnd
                rw [hnd] at hd
                exact absurd hd (by simp)
              · rw [getD_set_ne _ _ _ _ _ (fun hx => hpq hx.symm)] at hd ⊢
                exact hdirty p (by simpa using hp) hd
            · intro p hp hr
              simp only [pte] at hr ⊢
              by_cases hpq : p = (t.addr - start) / PS
              · subst hpq
                rw [getD_set_self _ _ _ _ hplen] at hr
                simp only at hr
                rw [is_page_resident, pte] at hres
                rw [hres] at hr
                exact absurd hr (by simp)
              · rw [getD_set_ne _ _ _ _ _ (fun hx => hpq hx.symm)] at hr ⊢
                exact hclear p (by simpa using hp) hr
        | read =>
            rw [hc, sigsegv_accerr_read NP PS start t.victim t.addr _ s hlo
              hhi rfl hpage hplen hperm] at h
            injection h with h
            subst h
            refine ⟨by simpa using hlen, ?_, by simpa using hle, ?_, ?_⟩
            · show s.numResident = residentCount (s.pageTable.set _ _)
              have hcs := countP_set (fun e => e.resident) s.pageTable
                ((t.addr - start) / PS)
                ⟨(pte s ((t.addr - start) / PS)).resident, true, true,
                  Perm.rdwr⟩ PTE.clear hplen
              simp only [pte] at hcs ⊢
              rw [residentCount] at hcount ⊢
              omega
            · intro p hp hd
              simp only [pte] at hd ⊢
              by_cases hpq : p = (t.addr - start) / PS
              · subst hpq
                rw [getD_set_self _ _ _ _ hplen]
              · rw [getD_set_ne _ _ _ _ _ (fun hx => hpq hx.symm)] at hd ⊢
                exact hdirty p (by simpa using hp) hd
            · intro p hp hr
              simp only [pte] at hr ⊢
              by_cases hpq : p = (t.addr - start) / PS
              · subst hpq
                rw [getD_set_self _ _ _ _ hplen] at hr
                simp only at hr
                rw [is_page_resident, pte] at hres
                rw [hres] at hr
                exact absurd hr (by simp)
              · rw [getD_set_ne _ _ _ _ _ (fun hx => hpq hx.symm)] at hr ⊢
                exact hclear p (by simpa using hp) hr
        | rdwr =>
            rw [hc, sigsegv_accerr_rdwr NP PS start t.victim t.addr _ s hlo
              hhi rfl hpage hperm] at h
            exact Res.noConfusion h

/-- getD over a replicated list always yields the replicated element. -/
theorem getD_replicate {α : Type} (n i : Nat) (a : α) :
    (List.replicate n a).getD i a = a := by
  rw [List.getD_eq_getElem?_getD, List.getElem?_replicate]
  split <;> rfl

/-- The freshly cleared page table has no resident entries. -/
theorem residentCount_replicate (n : Nat) :
    residentCount (List.replicate n PTE.clear) = 0 := by
  induction n with
  | zero => rfl
  | succ m ih =>
      rw [residentCount] at ih ⊢
      simp [List.replicate_succ, List.countP_cons, PTE.clear, ih]

/-- The state vmem_init builds satisfies the core invariant. -/
theorem inv_vmem_init (NP PS maxR : Nat) : Inv NP (vmem_init NP PS maxR) := by
  refine ⟨by simp [vmem_init], ?_, by simp [vmem_init], ?_, ?_⟩
  · show 0 = residentCount (List.replicate NP PTE.clear)
    rw [residentCount_replicate]
  · intro p hp hd
    have hx : ((List.replicate NP PTE.clear).getD p PTE.clear).dirty = true := hd
    rw [getD_replicate] at hx
    exact absurd hx (by simp [PTE.clear])
  · intro p hp hr
    show pte (vmem_init NP PS maxR) p = PTE.clear
    rw [pte]
    show (List.replicate NP PTE.clear).getD p PTE.clear = PTE.clear
    rw [getD_replicate]

/-- The invariant survives any successfully resolved well-formed trap
sequence. -/
theorem inv_runTraps (NP PS start : Nat) (ts : List Trap) (s s' : VMState)
    (hPS : 0 < PS) (hInv : Inv NP s) (hok : TrapsOK NP PS start s ts = true)
    (h : runTraps NP PS start ts s = Res.ok s') : Inv NP s' := by
  induction ts generalizing s with
  | nil =>
      rw [runTraps] at h
      injection h with h
      subst h
      exact hInv
  | cons t rest ih =>
      rw [runTraps] at h
      rw [TrapsOK, Bool.and_eq_true] at hok
      obtain ⟨hwf, hrest⟩ := hok
      cases hh : sigsegv_handler NP PS start t.victim t.addr t.code s with
      | ok s1 =>
          rw [hh] at h hrest
          exact ih s1 (inv_sigsegv NP PS start t s s1 hPS hInv hwf hh) hrest h
      | aborted s1 =>
          rw [hh] at h
          exact Res.noConfusion h

/-- Whatever map_page does, it never queries the replacement policy: the
events it appends contain no chooseVictim. -/
theorem map_page_no_victim_query (PS page : Nat) (perm : Perm)
    (s : VMState) :
    ∃ l, (resState (map_page PS page perm s)).events = s.events ++ l ∧
      ∀ v, Event.chooseVictim v ∉ l := by
  by_cases h1 : page < s.pageTable.length
  · by_cases h2 : is_page_resident s page = true
    · rw [map_page_abort_resident PS page perm s h1 h2]
      exact ⟨[], by simp [resState], by simp⟩
    · have h2f : is_page_resident s page = false := by
        revert h2; cases is_page_resident s page <;> simp
      by_cases h3 : s.numResident < s.maxResident
      · rw [map_page_ok PS page perm s h1 h2f h3]
        refine ⟨mapTrace PS page (pte s page) perm, by simp [resState], ?_⟩
        intro v
        simp [mapTrace]
      · rw [map_page_abort_capacity PS page perm s h1 h2f (by omega)]
        exact ⟨[], by simp [resState], by simp⟩
  · rw [map_page_abort_len PS page perm s h1]
    exact ⟨[], by simp [resState], by simp⟩

/-- unmap_page aborts when the page index is out of range. -/
theorem unmap_page_abort_len (PS page : Nat) (s : VMState)
    (h : ¬ page < s.pageTable.length) :
    unmap_page PS page s = Res.aborted s := by
  unfold unmap_page
  rw [if_neg h]

/-- unmap_page aborts when no page is resident. -/
theorem unmap_page_abort_zero (PS page : Nat) (s : VMState)
    (h1 : page < s.pageTable.length) (h2 : s.numResident = 0) :
    unmap_page PS page s = Res.aborted s := by
  unfold unmap_page
  rw [if_pos h1, if_pos h2]

/-- unmap_page aborts when the page is not resident. -/
theorem unmap_page_abort_nonresident (PS page : Nat) (s : VMState)
    (h1 : page < s.pageTable.length) (h2 : ¬ s.numResident = 0)
    (h3 : is_page_resident s page = false) :
    unmap_page PS page s = Res.aborted s := by
  unfold unmap_page
  rw [if_pos h1, if_neg h2, if_neg (by rw [h3]; exact Bool.false_ne_true)]

/-- A successful unmap_page call certifies all three of its guards. -/
theorem unmap_page_ok_inversion (PS page : Nat) (s s' : VMState)
    (h : unmap_page PS page s = Res.ok s') :
    page < s.pageTable.length ∧ is_page_resident s page = true ∧
      0 < s.numResident := by
  by_cases h1 : page < s.pageTable.length
  · by_cases h2 : s.numResident = 0
    · rw [unmap_page_abort_zero PS page s h1 h2] at h
      exact Res.noConfusion h
    · by_cases h3 : is_page_resident s page = true
      · exact ⟨h1, h3, by omega⟩
      · have h3f : is_page_resident s page = false := by
          revert h3; cases is_page_resident s page <;> simp
        rw [unmap_page_abort_nonresident PS page s h1 h2 h3f] at h
        exact Res.noConfusion h
  · rw [unmap_page_abort_len PS page s h1] at h
    exact Res.noConfusion h

/-- The invariant survives a successful unmap_page call. -/
theorem inv_unmap_page (NP PS page : Nat) (s s' : VMState)
    (hInv : Inv NP s) (h : unmap_page PS page s = Res.ok s') :
    Inv NP s' := by
  obtain ⟨h1, h2, h3⟩ := unmap_page_ok_inversion PS page s s' h
  rw [unmap_page_ok PS page s h1 h2 h3] at h
  obtain ⟨hlen, hcount, hle, hdirty, hclear⟩ := hInv
  injection h with h
  subst h
  refine ⟨by simpa using hlen, ?_,
    by simpa using (Nat.sub_le _ _).trans hle, ?_, ?_⟩
  · show s.numResident - 1 = residentCount (s.pageTable.set page PTE.clear)
    have hcs := countP_set (fun e => e.resident) s.pageTable page
      PTE.clear PTE.clear h1
    rw [is_page_resident, pte, List.getD_eq_getElem?_getD] at h2
    simp [PTE.clear] at hcs h2
    simp [h2] at hcs
    rw [residentCount] at hcount ⊢
    simp only [PTE.clear]
    omega
  · intro p hp hd
    simp only [pte] at hd ⊢
    by_cases hpq : p = page
    · subst hpq
      rw [getD_set_self _ _ _ _ h1] at hd
      simp [PTE.clear] at hd
    · rw [getD_set_ne _ _ _ _ _ (fun hx => hpq hx.symm)] at hd ⊢
      exact hdirty p (by simpa using hp) hd
  · intro p hp hr
    simp only [pte] at hr ⊢
    by_cases hpq : p = page
    · subst hpq
      rw [getD_set_self _ _ _ _ h1]
    · rw [getD_set_ne _ _ _ _ _ (fun hx => hpq hx.symm)] at hr ⊢
      exact hclear p (by simpa using hp) hr

/-- A stored-permission update event is acceptable when either the page
was not resident at the time, or the permission widened, or it is the
transient READ downgrade that unmap_page applies to a dirty page just
before flushing it to the swap file.  All other events are acceptable. -/
def permEventOk : Event → Bool
  | Event.permSet _ old new wasRes wasDirty =>
      !wasRes || permLe old new || (wasDirty && new == Perm.read)
  | _ => true

/-- Every event a successfully resolved trap appends is acceptable in the
sense of permEventOk: the only narrowing stored-permission update on a
resident page is the dirty-flush downgrade to READ inside eviction. -/
theorem sigsegv_events_ok (NP PS start : Nat) (t : Trap) (s s' : VMState)
    (hPS : 0 < PS) (hInv : Inv NP s)
    (h : sigsegv_handler NP PS start t.victim t.addr t.code s = Res.ok s') :
    ∀ e, e ∈ s'.events → e ∈ s.events ∨ permEventOk e = true := by
  by_cases hrange : t.addr < start ∨ start + NP * PS ≤ t.addr
  · unfold sigsegv_handler at h
    rw [if_pos hrange] at h
    exact Res.noConfusion h
  · push_neg at hrange
    obtain ⟨hlo, hhi⟩ := hrange
    have hpage : (t.addr - start) / PS < NP :=
      fault_page_lt NP PS start t.addr hPS hlo hhi
    obtain ⟨hlen, hcount, hle, hdirty, hclear⟩ := hInv
    cases hc : t.code with
    | maperr =>
        by_cases hcap : s.numResident = s.maxResident
        · by_cases hres : is_page_resident s t.victim = true
          · have hnz : 0 < s.numResident := by
              have := residentCount_pos s t.victim hres
              omega
            rw [hc, sigsegv_maperr_atcap NP PS start t.victim t.addr _ s hlo
              hhi rfl hpage hcap hres hnz] at h
            obtain ⟨m1, m2, m3⟩ := map_page_ok_inversion PS _ Perm.none _ s' h
            rw [map_page_ok PS _ Perm.none _ m1 m2 m3] at h
            injection h with h
            subst h
            intro e he
            simp only [List.mem_append] at he
            rcases he with ⟨⟨he | he⟩ | he⟩ | he
            · exact Or.inl he
            · right
              simp only [List.mem_singleton] at he
              subst he
              rfl
            · right
              rw [unmapTrace] at he
              rcases (List.mem_append.mp he) with he | he
              · by_cases hd : (pte s t.victim).dirty = true
                · rw [if_pos hd] at he
                  simp only [List.mem_cons, List.not_mem_nil, or_false] at he
                  rcases he with he | he | he <;> subst he <;>
                    simp [permEventOk, hd]
                · rw [if_neg hd] at he
                  simp at he
              · simp only [List.mem_cons, List.not_mem_nil, or_false] at he
                rcases he with he | he | he <;> subst he <;> rfl
            · right
              have hmid : pte { s with
                  numFaults := s.numFaults + 1,
                  pageTable := s.pageTable.set t.victim PTE.clear,
                  mapped := s.mapped.set t.victim false,
                  liveProt := s.liveProt.set t.victim Perm.none,
                  numResident := s.numResident - 1,
                  swapSize := if is_page_dirty s t.victim then
                    max s.swapSize (t.victim * PS + PS) else s.swapSize,
                  events := s.events ++ [Event.chooseVictim t.victim] ++
                    unmapTrace PS t.victim (pte s t.victim) }
                  ((t.addr - start) / PS) = PTE.clear := by
                simp only [pte]
                by_cases hpq : (t.addr - start) / PS = t.victim
                · rw [hpq, getD_set_self _ _ _ _
                    (resident_lt_length s t.victim hres)]
                · rw [getD_set_ne _ _ _ _ _ (fun hx => hpq hx.symm)]
                  exact hclear _ (by simpa using m1) (by
                    rw [is_page_resident] at m2
                    rw [pte] at m2 ⊢
                    rwa [getD_set_ne _ _ _ _ _ (fun hx => hpq hx.symm)] at m2)
              rw [mapTrace, hmid] at he
              simp only [List.mem_cons, List.not_mem_nil, or_false] at he
              rcases he with he | he | he | he | he <;> subst he <;>
                simp [permEventOk, PTE.clear, permLe]
          · have hres' : is_page_resident s t.victim = false := by
              revert hres; cases is_page_resident s t.victim <;> simp
            rw [hc, sigsegv_maperr_badvictim NP PS start t.victim t.addr _ s
              hlo hhi rfl hpage hcap hres'] at h
            exact Res.noConfusion h
        · by_cases hlt : s.numResident < s.maxResident
          · rw [hc, sigsegv_maperr_below NP PS start t.victim t.addr _ s hlo
              hhi rfl hpage hlt] at h
            obtain ⟨m1, m2, m3⟩ := map_page_ok_inversion PS _ Perm.none _ s' h
            rw [map_page_ok PS _ Perm.none _ m1 m2 m3] at h
            injection h with h
            subst h
            intro e he
            simp only [List.mem_append] at he
            rcases he with he | he
            · exact Or.inl he
            · right
              have hmid : pte { s with numFaults := s.numFaults + 1 }
                  ((t.addr - start) / PS) = PTE.clear := by
                refine hclear _ (by simpa using m1) ?_
                rw [is_page_resident] at m2
                exact m2
              rw [mapTrace, hmid] at he
              simp only [List.mem_cons, List.not_mem_nil, or_false] at he
              rcases he with he | he | he | he | he <;> subst he <;>
                simp [permEventOk, PTE.clear, permLe]
          · omega
    | accerr =>
        set page := (t.addr - start) / PS with hpdef
        cases hperm : get_page_permission s page with
        | none =>
            by_cases hplen : page < s.pageTable.length
            · rw [hc, sigsegv_accerr_none NP PS start t.victim t.addr _ s hlo
                hhi rfl hpage hplen hperm] at h
              injection h with h
              subst h
              intro e he
              simp only [List.mem_append] at he
              rcases he with he | he
              · exact Or.inl he
              · right
                simp only [List.mem_cons, List.not_mem_nil, or_false] at he
                rcases he with he | he <;> subst he <;>
                  simp [permEventOk, permLe]
            · exfalso
              rw [hc] at h
              unfold sigsegv_handler at h
              rw [if_neg (by push_neg; exact ⟨hlo, hhi⟩)] at h
              simp only [← hpdef] at h
              rw [if_neg (Nat.not_le.mpr hpage)] at h
              have hq : page < s.pageTable.length := by
                rw [hlen]
                exact hpage
              exact hplen hq
        | read =>
            have hplen : page < s.pageTable.length := by
              rw [hlen]; exact hpage
            rw [hc, sigsegv_accerr_read NP PS start t.victim t.addr _ s hlo
              hhi rfl hpage hplen hperm] at h
            injection h with h
            subst h
            intro e he
            simp only [List.mem_append] at he
            rcases he with he | he
            · exact Or.inl he
            · right
              simp only [List.mem_cons, List.not_mem_nil, or_false] at he
              rcases he with he | he <;> subst he <;>
                simp [permEventOk, permLe]
        | rdwr =>
            rw [hc, sigsegv_accerr_rdwr NP PS start t.victim t.addr _ s hlo
              hhi rfl hpage hperm] at h
            exact Res.noConfusion h

/-- Recognises a swap-slot write event. -/
def isSwapWrite : Event → Bool
  | Event.swapWrite _ _ _ => true
  | _ => false

/-- C9: for every page index p < NUM_PAGES, translating the page to its
address and back is the identity, and the address lies inside
[vmem_start, vmem_end). -/
theorem c9_translation_roundtrip (NP PS start p : Nat) (hPS : 0 < PS)
    (hp : p < NP) :
    (page_to_addr NP PS start p).bind (addr_to_page NP PS start) = some p ∧
    ∀ a, page_to_addr NP PS start p = some a →
      start ≤ a ∧ a < start + NP * PS := by
  have hmul : p * PS < NP * PS := (Nat.mul_lt_mul_right hPS).mpr hp
  constructor
  · rw [page_to_addr, if_pos hp]
    show addr_to_page NP PS start (start + p * PS) = some p
    rw [addr_to_page, if_pos ⟨by omega, by omega⟩,
      addr_page_calc PS start p hPS]
  · intro a ha
    rw [page_to_addr, if_pos hp] at ha
    injection ha with ha
    subst ha
    exact ⟨by omega, by omega⟩

/-- Witness for C9 at NUM_PAGES = 4, PAGE_SIZE = 8,
vmem_start = 0x20000000 and page 3. -/
theorem c9_translation_roundtrip_witness :
    (page_to_addr 4 8 536870912 3).bind (addr_to_page 4 8 536870912) =
      some 3 :=
  (c9_translation_roundtrip 4 8 536870912 3 (by decide) (by decide)).1

/-- C8 counterexample: with NUM_PAGES = 4 and PAGE_SIZE = 8, the file
vmem_init leaves behind is 33 bytes long, not NUM_PAGES * PAGE_SIZE = 32:
the sentinel byte is written at offset NUM_PAGES * PAGE_SIZE, one past
the claimed final offset of a file of that size. -/
theorem c8_swap_sizing_counterexample :
    (vmem_init 4 8 2).swapSize = 33 ∧ ¬ (vmem_init 4 8 2).swapSize = 4 * 8 := by
  constructor
  · rfl
  · decide

/-- C8 amended: initialization extends the swap file with a single
one-byte sentinel write at offset NUM_PAGES * PAGE_SIZE, so the
resulting file is NUM_PAGES * PAGE_SIZE + 1 bytes long and in particular
covers all NUM_PAGES * PAGE_SIZE slot bytes. -/
theorem c8_swap_sizing (NP PS maxR : Nat) :
    (vmem_init NP PS maxR).events = [Event.swapExtend (NP * PS) 1] ∧
    (vmem_init NP PS maxR).swapSize = NP * PS + 1 ∧
    NP * PS ≤ (vmem_init NP PS maxR).swapSize := by
  refine ⟨rfl, rfl, ?_⟩
  show NP * PS ≤ NP * PS + 1
  omega

/-- C7: set_page_permission applies mprotect to the live mapping first
and updates the page-table entry second (visible in the event order);
after success the stored permission and the live protection agree; on
mprotect failure the process aborts with the page table and the live
protection both untouched. -/
theorem c7_set_page_permission (page : Nat) (perm : Perm) (s : VMState)
    (hlen1 : page < s.pageTable.length) (hlen2 : page < s.liveProt.length) :
    (set_page_permission true page perm s = Res.ok { s with
      liveProt := s.liveProt.set page perm,
      pageTable := s.pageTable.set page { pte s page with perm := perm },
      events := s.events ++ [Event.mprotectCall page perm,
        Event.permSet page (pte s page).perm perm
          (pte s page).resident (pte s page).dirty] }) ∧
    (∀ s1, set_page_permission true page perm s = Res.ok s1 →
      s1.liveProt.getD page Perm.none = perm ∧
      get_page_permission s1 page = perm) ∧
    (set_page_permission false page perm s = Res.aborted { s with
      events := s.events ++ [Event.mprotectCall page perm] }) ∧
    (∀ s1, set_page_permission false page perm s = Res.aborted s1 →
      s1.pageTable = s.pageTable ∧ s1.liveProt = s.liveProt) := by
  refine ⟨by rw [set_page_permission, if_pos rfl], ?_, ?_, ?_⟩
  · intro s1 h
    rw [set_page_permission, if_pos rfl] at h
    injection h with h
    subst h
    constructor
    · exact getD_set_self _ _ _ _ hlen2
    · rw [get_page_permission, pte]
      show ((s.pageTable.set page _).getD page PTE.clear).perm = perm
      rw [getD_set_self _ _ _ _ hlen1]
  · rw [set_page_permission, if_neg (by simp)]
  · intro s1 h
    rw [set_page_permission, if_neg (by simp)] at h
    injection h with h
    subst h
    exact ⟨rfl, rfl⟩

/-- Concrete state used by the witnesses: one resident dirty read-write
page backed by slot 0. -/
def wDirty : VMState :=
  { pageTable := [⟨true, true, true, Perm.rdwr⟩],
    mapped := [true],
    liveProt := [Perm.rdwr],
    numResident := 1,
    maxResident := 1,
    numFaults := 3,
    numLoads := 1,
    swapSize := 9,
    events := [] }

/-- Witness for C7 on the concrete one-page state. -/
theorem c7_set_page_permission_witness :
    set_page_permission true 0 Perm.read wDirty = Res.ok { wDirty with
      liveProt := [Perm.read],
      pageTable := [⟨true, true, true, Perm.read⟩],
      events := [Event.mprotectCall 0 Perm.read,
        Event.permSet 0 Perm.rdwr Perm.read true true] } := by
  have h := (c7_set_page_permission 0 Perm.read wDirty (by decide)
    (by decide)).1
  rw [h]
  rfl

/-- C6: unmap_page on a resident page writes nothing to the swap slot
when the page is clean, and performs exactly one PAGE_SIZE-byte write at
offset page * PAGE_SIZE — after the temporary downgrade to READ and
before the munmap — when the page is dirty; in both cases the entry is
then cleared. -/
theorem c6_unmap_flush (PS page : Nat) (s : VMState)
    (h1 : page < s.pageTable.length)
    (h2 : is_page_resident s page = true)
    (h3 : 0 < s.numResident) :
    Res.isOk (unmap_page PS page s) = true ∧
    (resState (unmap_page PS page s)).events =
      s.events ++ unmapTrace PS page (pte s page) ∧
    (resState (unmap_page PS page s)).pageTable =
      s.pageTable.set page PTE.clear ∧
    (is_page_dirty s page = false →
      (unmapTrace PS page (pte s page)).countP isSwapWrite = 0) ∧
    (is_page_dirty s page = true →
      unmapTrace PS page (pte s page) =
        [Event.mprotectCall page Perm.read,
         Event.permSet page (pte s page).perm Perm.read
           (pte s page).resident (pte s page).dirty,
         Event.swapWrite page (page * PS) PS,
         Event.munmapCall page, Event.clearEntry page,
         Event.policyUnmapped page] ∧
      (unmapTrace PS page (pte s page)).countP isSwapWrite = 1) := by
  rw [unmap_page_ok PS page s h1 h2 h3]
  refine ⟨rfl, rfl, rfl, ?_, ?_⟩
  · intro hd
    rw [is_page_dirty] at hd
    simp [unmapTrace, hd, isSwapWrite, List.countP_cons]
  · intro hd
    rw [is_page_dirty] at hd
    constructor
    · rw [unmapTrace, if_pos hd]
      rfl
    · simp [unmapTrace, hd, isSwapWrite, List.countP_cons]

/-- Witness for C6 on the concrete dirty one-page state with
PAGE_SIZE = 8. -/
theorem c6_unmap_flush_witness :
    Res.isOk (unmap_page 8 0 wDirty) = true ∧
    (unmapTrace 8 0 (pte wDirty 0)).countP isSwapWrite = 1 := by
  have h := c6_unmap_flush 8 0 wDirty (by decide) (by decide) (by decide)
  exact ⟨h.1, (h.2.2.2.2 (by decide)).2⟩

/-- Every event accumulated by a successfully resolved well-formed trap
sequence is acceptable in the sense of permEventOk, provided the events
already present were. -/
theorem runTraps_events_ok (NP PS start : Nat) (ts : List Trap)
    (s s' : VMState) (hPS : 0 < PS) (hInv : Inv NP s)
    (hok : TrapsOK NP PS start s ts = true)
    (h : runTraps NP PS start ts s = Res.ok s')
    (hbase : ∀ e ∈ s.events, permEventOk e = true) :
    ∀ e ∈ s'.events, permEventOk e = true := by
  induction ts generalizing s with
  | nil =>
      rw [runTraps] at h
      injection h with h
      subst h
      exact hbase
  | cons t rest ih =>
      rw [runTraps] at h
      rw [TrapsOK, Bool.and_eq_true] at hok
      obtain ⟨hwf, hrest⟩ := hok
      cases hh : sigsegv_handler NP PS start t.victim t.addr t.code s with
      | ok s1 =>
          rw [hh] at h hrest
          refine ih s1 (inv_sigsegv NP PS start t s s1 hPS hInv hwf hh)
            hrest h ?_
          intro e he
          rcases sigsegv_events_ok NP PS start t s s1 hPS hInv hh e he with
            hm | hokk
          · exact hbase e hm
          · exact hokk
      | aborted s1 =>
          rw [hh] at h
          exact Res.noConfusion h

/-- C1: along every well-formed trap sequence that resolves successfully,
the resident count never exceeds max_resident; and any map_page call
issued when the counter is already at or above max_resident aborts
instead of completing. -/
theorem c1_capacity_bound (NP PS start : Nat) (ts : List Trap)
    (s s' : VMState) (hPS : 0 < PS) (hInv : Inv NP s)
    (hok : TrapsOK NP PS start s ts = true)
    (h : runTraps NP PS start ts s = Res.ok s') :
    s'.numResident ≤ s'.maxResident ∧
    ∀ (s2 : VMState) (page : Nat) (perm : Perm),
      s2.maxResident ≤ s2.numResident →
      Res.isOk (map_page PS page perm s2) = false := by
  constructor
  · exact (inv_runTraps NP PS start ts s s' hPS hInv hok h).2.2.1
  · intro s2 page perm hcap
    by_cases b1 : page < s2.pageTable.length
    · by_cases b2 : is_page_resident s2 page = true
      · rw [map_page_abort_resident PS page perm s2 b1 b2]
        rfl
      · have b2f : is_page_resident s2 page = false := by
          revert b2; cases is_page_resident s2 page <;> simp
        rw [map_page_abort_capacity PS page perm s2 b1 b2f hcap]
        rfl
    · rw [map_page_abort_len PS page perm s2 b1]
      rfl

/-- Witness for C1 on a one-trap run from a freshly initialized state
with NUM_PAGES = 2, PAGE_SIZE = 4 and max_resident = 1. -/
theorem c1_capacity_bound_witness :
    (resState (runTraps 2 4 0 [⟨0, 0, SigCode.maperr⟩]
      (vmem_init 2 4 1))).numResident ≤
    (resState (runTraps 2 4 0 [⟨0, 0, SigCode.maperr⟩]
      (vmem_init 2 4 1))).maxResident :=
  (c1_capacity_bound 2 4 0 [⟨0, 0, SigCode.maperr⟩] (vmem_init 2 4 1)
    (resState (runTraps 2 4 0 [⟨0, 0, SigCode.maperr⟩] (vmem_init 2 4 1)))
    (by decide) (inv_vmem_init 2 4 1) (by decide) (by decide)).1

/-- C5: in every state reached by a well-formed trap sequence, a dirty
page has stored permission READ-WRITE; and both page-mapper operations
preserve this implication from any state satisfying the invariant. -/
theorem c5_dirty_implies_rdwr (NP PS start : Nat) (ts : List Trap)
    (s s' : VMState) (hPS : 0 < PS) (hInv : Inv NP s)
    (hok : TrapsOK NP PS start s ts = true)
    (h : runTraps NP PS start ts s = Res.ok s') :
    (∀ p, is_page_dirty s' p = true →
      get_page_permission s' p = Perm.rdwr) ∧
    (∀ (s2 s3 : VMState) (page : Nat) (perm : Perm), Inv NP s2 →
      map_page PS page perm s2 = Res.ok s3 →
      ∀ p, is_page_dirty s3 p = true →
        get_page_permission s3 p = Perm.rdwr) ∧
    (∀ (s2 s3 : VMState) (page : Nat), Inv NP s2 →
      unmap_page PS page s2 = Res.ok s3 →
      ∀ p, is_page_dirty s3 p = true →
        get_page_permission s3 p = Perm.rdwr) := by
  refine ⟨?_, ?_, ?_⟩
  · intro p hd
    exact (inv_runTraps NP PS start ts s s' hPS hInv hok h).dirty_rdwr p hd
  · intro s2 s3 page perm hInv2 hm p hd
    exact (inv_map_page NP PS page perm s2 s3 hInv2 hm).dirty_rdwr p hd
  · intro s2 s3 page hInv2 hm p hd
    exact (inv_unmap_page NP PS page s2 s3 hInv2 hm).dirty_rdwr p hd

/-- Witness for C5 on a run that loads page 0, reads it and writes it. -/
theorem c5_dirty_implies_rdwr_witness :
    get_page_permission (resState (runTraps 2 4 0
      [⟨0, 0, SigCode.maperr⟩, ⟨0, 0, SigCode.accerr⟩,
       ⟨0, 0, SigCode.accerr⟩] (vmem_init 2 4 1))) 0 = Perm.rdwr :=
  (c5_dirty_implies_rdwr 2 4 0
    [⟨0, 0, SigCode.maperr⟩, ⟨0, 0, SigCode.accerr⟩,
     ⟨0, 0, SigCode.accerr⟩] (vmem_init 2 4 1)
    (resState (runTraps 2 4 0
      [⟨0, 0, SigCode.maperr⟩, ⟨0, 0, SigCode.accerr⟩,
       ⟨0, 0, SigCode.accerr⟩] (vmem_init 2 4 1)))
    (by decide) (inv_vmem_init 2 4 1) (by decide) (by decide)).1
    0 (by decide)

/-- C10: along every well-formed trap sequence num_resident equals the
number of entries whose resident bit is set; map_page increments the
counter while setting exactly one resident bit, and unmap_page clears
exactly one previously resident entry while decrementing the counter. -/
theorem c10_resident_accounting (NP PS start : Nat) (ts : List Trap)
    (s s' : VMState) (hPS : 0 < PS) (hInv : Inv NP s)
    (hok : TrapsOK NP PS start s ts = true)
    (h : runTraps NP PS start ts s = Res.ok s') :
    s'.numResident = residentCount s'.pageTable ∧
    (∀ (s2 s3 : VMState) (page : Nat) (perm : Perm),
      map_page PS page perm s2 = Res.ok s3 →
      s3.numResident = s2.numResident + 1 ∧
      s3.pageTable = s2.pageTable.set page
        ⟨true, (pte s2 page).accessed, (pte s2 page).dirty, perm⟩ ∧
      is_page_resident s2 page = false ∧
      is_page_resident s3 page = true) ∧
    (∀ (s2 s3 : VMState) (page : Nat),
      unmap_page PS page s2 = Res.ok s3 →
      s3.numResident = s2.numResident - 1 ∧
      s3.pageTable = s2.pageTable.set page PTE.clear ∧
      is_page_resident s2 page = true ∧
      is_page_resident s3 page = false) := by
  refine ⟨(inv_runTraps NP PS start ts s s' hPS hInv hok h).2.1, ?_, ?_⟩
  · intro s2 s3 page perm hm
    obtain ⟨b1, b2, b3⟩ := map_page_ok_inversion PS page perm s2 s3 hm
    rw [map_page_ok PS page perm s2 b1 b2 b3] at hm
    injection hm with hm
    subst hm
    refine ⟨rfl, rfl, b2, ?_⟩
    rw [is_page_resident, pte]
    show ((s2.pageTable.set page _).getD page PTE.clear).resident = true
    rw [getD_set_self _ _ _ _ b1]
  · intro s2 s3 page hm
    obtain ⟨b1, b2, b3⟩ := unmap_page_ok_inversion PS page s2 s3 hm
    rw [unmap_page_ok PS page s2 b1 b2 b3] at hm
    injection hm with hm
    subst hm
    refine ⟨rfl, rfl, b2, ?_⟩
    rw [is_page_resident, pte]
    show ((s2.pageTable.set page _).getD page PTE.clear).resident = false
    rw [getD_set_self _ _ _ _ b1]
    rfl

/-- Witness for C10 on a two-trap run that loads both pages. -/
theorem c10_resident_accounting_witness :
    (resState (runTraps 2 4 0
      [⟨0, 0, SigCode.maperr⟩, ⟨0, 4, SigCode.maperr⟩]
      (vmem_init 2 4 2))).numResident =
    residentCount (resState (runTraps 2 4 0
      [⟨0, 0, SigCode.maperr⟩, ⟨0, 4, SigCode.maperr⟩]
      (vmem_init 2 4 2))).pageTable :=
  (c10_resident_accounting 2 4 0
    [⟨0, 0, SigCode.maperr⟩, ⟨0, 4, SigCode.maperr⟩] (vmem_init 2 4 2)
    (resState (runTraps 2 4 0
      [⟨0, 0, SigCode.maperr⟩, ⟨0, 4, SigCode.maperr⟩]
      (vmem_init 2 4 2)))
    (by decide) (inv_vmem_init 2 4 2) (by decide) (by decide)).1

/-- C3: a SEGV_ACCERR fault on a resident page first sets the accessed
bit unconditionally and then dispatches on the stored permission: NONE
is upgraded to READ with nothing else changing, READ is upgraded to
READ-WRITE with the dirty bit set, and READ-WRITE aborts the process. -/
theorem c3_accerr_dispatch (NP PS start victim page : Nat) (s : VMState)
    (hPS : 0 < PS) (hpage : page < NP)
    (hlen : page < s.pageTable.length)
    (hres : is_page_resident s page = true) :
    (get_page_permission s page = Perm.none →
      sigsegv_handler NP PS start victim (start + page * PS)
        SigCode.accerr s = Res.ok { s with
          numFaults := s.numFaults + 1,
          pageTable := s.pageTable.set page
            ⟨(pte s page).resident, true, (pte s page).dirty, Perm.read⟩,
          liveProt := s.liveProt.set page Perm.read,
          events := s.events ++ [Event.mprotectCall page Perm.read,
            Event.permSet page Perm.none Perm.read
              (pte s page).resident (pte s page).dirty] }) ∧
    (get_page_permission s page = Perm.read →
      sigsegv_handler NP PS start victim (start + page * PS)
        SigCode.accerr s = Res.ok { s with
          numFaults := s.numFaults + 1,
          pageTable := s.pageTable.set page
            ⟨(pte s page).resident, true, true, Perm.rdwr⟩,
          liveProt := s.liveProt.set page Perm.rdwr,
          events := s.events ++ [Event.mprotectCall page Perm.rdwr,
            Event.permSet page Perm.read Perm.rdwr
              (pte s page).resident (pte s page).dirty] }) ∧
    (get_page_permission s page = Perm.rdwr →
      sigsegv_handler NP PS start victim (start + page * PS)
        SigCode.accerr s = Res.aborted { s with
          numFaults := s.numFaults + 1,
          pageTable := s.pageTable.set page
            ⟨(pte s page).resident, true, (pte s page).dirty,
              (pte s page).perm⟩ }) := by
  have hmul : page * PS < NP * PS := (Nat.mul_lt_mul_right hPS).mpr hpage
  refine ⟨?_, ?_, ?_⟩
  · intro hperm
    exact sigsegv_accerr_none NP PS start victim (start + page * PS) page s
      (by omega) (by omega) (addr_page_calc PS start page hPS) hpage hlen
      hperm
  · intro hperm
    exact sigsegv_accerr_read NP PS start victim (start + page * PS) page s
      (by omega) (by omega) (addr_page_calc PS start page hPS) hpage hlen
      hperm
  · intro hperm
    exact sigsegv_accerr_rdwr NP PS start victim (start + page * PS) page s
      (by omega) (by omega) (addr_page_calc PS start page hPS) hpage hperm

/-- Witness for C3: a permission fault on a page that is already
READ-WRITE aborts. -/
theorem c3_accerr_dispatch_witness :
    sigsegv_handler 1 8 0 0 0 SigCode.accerr wDirty = Res.aborted
      { wDirty with
        numFaults := 4,
        pageTable := [⟨true, true, true, Perm.rdwr⟩] } := by
  have h := (c3_accerr_dispatch 1 8 0 0 0 wDirty (by decide) (by decide)
    (by decide) (by decide)).2.2 (by decide)
  exact h.trans (by decide)

/-- The reachable trap sequence refuting C4 as stated: load page 0, read
it, write it (making it dirty READ-WRITE), then fault page 1 in —
evicting dirty page 0, which downgrades its stored permission from
READ-WRITE to READ while its resident bit is still set — and finally
load page 0 again, so the narrowing lies between two successive loads of
page 0. -/
def c4traps : List Trap :=
  [⟨0, 0, SigCode.maperr⟩, ⟨0, 0, SigCode.accerr⟩, ⟨0, 0, SigCode.accerr⟩,
   ⟨0, 4, SigCode.maperr⟩, ⟨1, 0, SigCode.maperr⟩]

/-- C4 counterexample: a well-formed run from a fresh state whose trace
contains the stored-permission transition READ-WRITE → READ recorded on
an entry whose resident bit was set, a narrowing, so permissions do not
only widen between successive loads. -/
theorem c4_widening_counterexample :
    TrapsOK 2 4 0 (vmem_init 2 4 1) c4traps = true ∧
    Res.isOk (runTraps 2 4 0 c4traps (vmem_init 2 4 1)) = true ∧
    Event.permSet 0 Perm.rdwr Perm.read true true ∈
      (resState (runTraps 2 4 0 c4traps (vmem_init 2 4 1))).events ∧
    permLe Perm.rdwr Perm.read = false := by
  refine ⟨by decide, by decide, by decide, by decide⟩

/-- C4 amended: in every run of well-formed traps from a fresh state,
every stored-permission update on a page whose resident bit is set
widens (NONE→READ→READ-WRITE), except for the single narrowing the code
performs: the downgrade of a dirty page to READ during its eviction
flush, immediately before the page is unloaded. -/
theorem c4_permission_widening (NP PS start maxR : Nat) (ts : List Trap)
    (s' : VMState) (hPS : 0 < PS)
    (hok : TrapsOK NP PS start (vmem_init NP PS maxR) ts = true)
    (h : runTraps NP PS start ts (vmem_init NP PS maxR) = Res.ok s') :
    ∀ e ∈ s'.events, permEventOk e = true := by
  refine runTraps_events_ok NP PS start ts _ s' hPS
    (inv_vmem_init NP PS maxR) hok h ?_
  intro e he
  simp only [vmem_init, List.mem_singleton] at he
  subst he
  rfl

/-- Witness for C4 amended on a two-trap run: the NONE → READ upgrade
event it produces is a widening. -/
theorem c4_permission_widening_witness :
    permEventOk (Event.permSet 0 Perm.none Perm.read true false) = true := by
  have h := c4_permission_widening 2 4 0 1
    [⟨0, 0, SigCode.maperr⟩, ⟨0, 0, SigCode.accerr⟩]
    (resState (runTraps 2 4 0
      [⟨0, 0, SigCode.maperr⟩, ⟨0, 0, SigCode.accerr⟩] (vmem_init 2 4 1)))
    (by decide) (by decide) (by decide)
  exact h _ (by decide)

/-- C2: servicing a SEGV_MAPERR fault at an in-range address, the
dispatcher queries choose_victim_page exactly when the resident count
equals max_resident: below capacity no chooseVictim event is produced
and the page is mapped directly; at capacity the query is recorded, a
non-resident victim aborts on the assert, and with a resident victim the
victim is fully unmapped (trace: unmapTrace) strictly before the faulting
page is mapped with permission NONE (trace: mapTrace). -/
theorem c2_eviction_protocol (NP PS start victim page : Nat) (s : VMState)
    (hPS : 0 < PS) (hpage : page < NP) (hInv : Inv NP s) :
    (s.numResident < s.maxResident →
      ∃ l, (resState (sigsegv_handler NP PS start victim
          (start + page * PS) SigCode.maperr s)).events =
            s.events ++ l ∧
        ∀ v, Event.chooseVictim v ∉ l) ∧
    (s.numResident = s.maxResident →
      is_page_resident s victim = false →
      sigsegv_handler NP PS start victim (start + page * PS)
        SigCode.maperr s = Res.aborted { s with
          numFaults := s.numFaults + 1,
          events := s.events ++ [Event.chooseVictim victim] }) ∧
    (s.numResident = s.maxResident →
      is_page_resident s victim = true →
      is_page_resident s page = false →
      sigsegv_handler NP PS start victim (start + page * PS)
        SigCode.maperr s = Res.ok { s with
          numFaults := s.numFaults + 1,
          pageTable := (s.pageTable.set victim PTE.clear).set page
            ⟨true, false, false, Perm.none⟩,
          mapped := (s.mapped.set victim false).set page true,
          liveProt := (s.liveProt.set victim Perm.none).set page Perm.none,
          numResident := s.numResident - 1 + 1,
          numLoads := s.numLoads + 1,
          swapSize := if is_page_dirty s victim then
            max s.swapSize (victim * PS + PS) else s.swapSize,
          events := s.events ++ [Event.chooseVictim victim] ++
            unmapTrace PS victim (pte s victim) ++
            mapTrace PS page PTE.clear Perm.none } ∧
      Event.chooseVictim victim ∈
        (resState (sigsegv_handler NP PS start victim
          (start + page * PS) SigCode.maperr s)).events) := by
  have hmul : page * PS < NP * PS := (Nat.mul_lt_mul_right hPS).mpr hpage
  have hlo : start ≤ start + page * PS := by omega
  have hhi : start + page * PS < start + NP * PS := by omega
  have hpc := addr_page_calc PS start page hPS
  obtain ⟨hlen, hcount, hle, hdirty, hclear⟩ := hInv
  refine ⟨?_, ?_, ?_⟩
  · intro hlt
    rw [sigsegv_maperr_below NP PS start victim (start + page * PS) page s
      hlo hhi hpc hpage hlt]
    exact map_page_no_victim_query PS page Perm.none
      { s with numFaults := s.numFaults + 1 }
  · intro hcap hres
    exact sigsegv_maperr_badvictim NP PS start victim (start + page * PS)
      page s hlo hhi hpc hpage hcap hres
  · intro hcap hres hpnr
    have hvl : victim < s.pageTable.length := resident_lt_length s victim hres
    have hnz : 0 < s.numResident := by
      have := residentCount_pos s victim hres
      omega
    have hstep := sigsegv_maperr_atcap NP PS start victim
      (start + page * PS) page s hlo hhi hpc hpage hcap hres hnz
    have hmid : pte { s with
        numFaults := s.numFaults + 1,
        pageTable := s.pageTable.set victim PTE.clear,
        mapped := s.mapped.set victim false,
        liveProt := s.liveProt.set victim Perm.none,
        numResident := s.numResident - 1,
        swapSize := if is_page_dirty s victim then
          max s.swapSize (victim * PS + PS) else s.swapSize,
        events := s.events ++ [Event.chooseVictim victim] ++
          unmapTrace PS victim (pte s victim) } page = PTE.clear := by
      simp only [pte]
      by_cases hpq : page = victim
      · rw [hpq, getD_set_self _ _ _ _ hvl]
      · rw [getD_set_ne _ _ _ _ _ (fun hx => hpq hx.symm)]
        refine hclear page (by rw [hlen]; exact hpage) ?_
        rw [is_page_resident] at hpnr
        exact hpnr
    have b1 : page < ({ s with
        numFaults := s.numFaults + 1,
        pageTable := s.pageTable.set victim PTE.clear,
        mapped := s.mapped.set victim false,
        liveProt := s.liveProt.set victim Perm.none,
        numResident := s.numResident - 1,
        swapSize := if is_page_dirty s victim then
          max s.swapSize (victim * PS + PS) else s.swapSize,
        events := s.events ++ [Event.chooseVictim victim] ++
          unmapTrace PS victim (pte s victim) } : VMState).pageTable.length := by
      show page < (s.pageTable.set victim PTE.clear).length
      rw [List.length_set, hlen]
      exact hpage
    have b2 : is_page_resident { s with
        numFaults := s.numFaults + 1,
        pageTable := s.pageTable.set victim PTE.clear,
        mapped := s.mapped.set victim false,
        liveProt := s.liveProt.set victim Perm.none,
        numResident := s.numResident - 1,
        swapSize := if is_page_dirty s victim then
          max s.swapSize (victim * PS + PS) else s.swapSize,
        events := s.events ++ [Event.chooseVictim victim] ++
          unmapTrace PS victim (pte s victim) } page = false := by
      rw [is_page_resident, hmid]
      rfl
    have b3 : ({ s with
        numFaults := s.numFaults + 1,
        pageTable := s.pageTable.set victim PTE.clear,
        mapped := s.mapped.set victim false,
        liveProt := s.liveProt.set victim Perm.none,
        numResident := s.numResident - 1,
        swapSize := if is_page_dirty s victim then
          max s.swapSize (victim * PS + PS) else s.swapSize,
        events := s.events ++ [Event.chooseVictim victim] ++
          unmapTrace PS victim (pte s victim) } : VMState).numResident <
      ({ s with
        numFaults := s.numFaults + 1,
        pageTable := s.pageTable.set victim PTE.clear,
        mapped := s.mapped.set victim false,
        liveProt := s.liveProt.set victim Perm.none,
        numResident := s.numResident - 1,
        swapSize := if is_page_dirty s victim then
          max s.swapSize (victim * PS + PS) else s.swapSize,
        events := s.events ++ [Event.chooseVictim victim] ++
          unmapTrace PS victim (pte s victim) } : VMState).maxResident := by
      show s.numResident - 1 < s.maxResident
      omega
    have hmap := map_page_ok PS page Perm.none _ b1 b2 b3
    rw [hmid] at hmap
    have hfull := hstep.trans hmap
    constructor
    · rw [hfull]
      simp [mapTrace, PTE.clear, List.append_assoc]
    · rw [hfull]
      simp [resState, mapTrace]

/-- Witness for C2: with max_resident = 0 the very first fault is at
capacity, the policy is queried, and its necessarily non-resident victim
trips the assert, aborting after exactly the chooseVictim event. -/
theorem c2_eviction_protocol_witness :
    sigsegv_handler 1 4 0 0 0 SigCode.maperr (vmem_init 1 4 0) =
      Res.aborted
        { pageTable := [PTE.clear], mapped := [false],
          liveProt := [Perm.none], numResident := 0, maxResident := 0,
          numFaults := 1, numLoads := 0, swapSize := 5,
          events := [Event.swapExtend 4 1, Event.chooseVictim 0] } := by
  have h := (c2_eviction_protocol 1 4 0 0 0 (vmem_init 1 4 0) (by decide)
    (by decide) (inv_vmem_init 1 4 0)).2.1 (by decide) (by decide)
  exact h.trans (by decide)

end VirtualMem
